import Mathlib

/-!
Verification development for the `alyal_data` repository: the
ingestion-normalization pipeline (`src/app/data/routes.py`,
`src/app/services/marketplace_adapters.py`) and the metrics engine
(`src/app/services/metrics.py`).

Modelling conventions:
* Python `Decimal` values are modelled by `PyDec` at the parser boundary
  (the full value range of the string constructor: finite
  mantissa/scale/exponent triples, infinities and NaN) and by `ℚ` inside
  the metrics engine, whose inputs are the stored `Numeric(12,2)` columns
  (the code uses exact decimal arithmetic); `Decimal.quantize(0.01)` and
  `round(x, 2)` are modelled by exact half-even rounding to two decimal
  places.
* Python strings are modelled by `String`, processed through structural
  `List Char` primitives that mirror the `str` methods used by the code.
* `unicodedata.normalize('NFKD', s)` followed by removal of combining
  characters is modelled by a character table covering the precomposed
  Latin letters that occur in the repository's vocabulary (identity on
  every other character).
* SQL `GROUP BY` aggregation followed by per-group accumulation is modelled
  by direct accumulation over the record list (sums of group sums equal
  direct sums, and group counts add up).
-/

deriving instance DecidableEq for Except

/-! ### Structural models of the Python `str` primitives used by the code -/

/-- Model of Python `str.strip()` (used with no argument: trims whitespace
from both ends). -/
def trimL (l : List Char) : List Char :=
  ((l.dropWhile Char.isWhitespace).reverse.dropWhile Char.isWhitespace).reverse

/-- Model of Python `s.replace(x, '')` for a single-character pattern `x`. -/
def removeChar (x : Char) (l : List Char) : List Char :=
  l.filter (fun c => c ≠ x)

/-- Model of Python `s.replace(x, y)` for single characters `x`, `y`. -/
def replaceChar (x y : Char) (l : List Char) : List Char :=
  l.map (fun c => if c = x then y else c)

/-- Model of Python `s.replace('R$', '')` (the only multi-character
replacement in the money parsers), scanning left to right. -/
def stripRS : List Char → List Char
  | 'R' :: '$' :: rest => stripRS rest
  | c :: rest => c :: stripRS rest
  | [] => []

/-- Model of Python `s.split(sep)` for a single-character separator. -/
def splitOnChar (sep : Char) : List Char → List (List Char)
  | [] => [[]]
  | c :: rest =>
    if c = sep then [] :: splitOnChar sep rest
    else
      match splitOnChar sep rest with
      | [] => [[c]]
      | h :: t => (c :: h) :: t

/-- Numeric value of a list of ASCII digits (most significant first). -/
def natOfDigits (l : List Char) : Nat :=
  l.foldl (fun n c => n * 10 + (c.toNat - 48)) 0

/-- Left-to-right scan behind `lastIdx`: `i` is the index of the head of
the remaining list, `best` the index of the last occurrence seen so far. -/
def lastIdxAux (x : Char) : Int → Int → List Char → Int
  | _, best, [] => best
  | i, best, c :: rest => lastIdxAux x (i + 1) (if c = x then i else best) rest

/-- Model of Python `s.rfind(c)`: index of the last occurrence of `c`,
`-1` when absent. -/
def lastIdx (l : List Char) (c : Char) : Int :=
  lastIdxAux c 0 (-1) l

/-! ### Model of the Python `Decimal` string constructor

Both money parsers end in `Decimal(cleaned)`; `parse_decimal_ptbr`
catches the `InvalidOperation` of a malformed literal and returns `None`,
`parse_decimal_ptbr_en` lets it propagate.  The constructor accepts the
full numeric-string grammar of the `decimal` module (after stripping
surrounding whitespace and removing underscores), case-insensitively: an
optional sign followed by either a coefficient `digits [. digits]`
holding at least one digit with an optional exponent `E sign? digits`, or
`Inf`/`Infinity`, or `s? NaN digits*`.  A finite result is kept as an
integer mantissa, a
decimal-place count and an exponent, so that the string-level part of
every parser is a pure integer computation. -/

/-- A `Decimal` value as produced by the string constructor: the finite
value `m / 10^scale * 10^exp`, an infinity, or a NaN (quiet and signaling
NaNs and their diagnostic digits are not distinguished). -/
inductive PyDec : Type where
  | fin (m : Int) (scale : Nat) (exp : Int)
  | inf (neg : Bool)
  | nan
deriving DecidableEq, Repr

/-- Rational value of a finite `Decimal` (`none` on NaN and infinities;
no finite `Decimal` value falls outside `ℚ`). -/
def PyDec.val : PyDec → Option ℚ
  | .fin m s e => some ((m : ℚ) / 10 ^ s * (10 : ℚ) ^ e)
  | _ => none

/-- Splits a literal at its first `e`/`E` into the coefficient text and,
when present, the exponent text. -/
def splitExp : List Char → List Char × Option (List Char)
  | [] => ([], none)
  | c :: rest =>
    if c = 'e' ∨ c = 'E' then ([], some rest)
    else
      let p := splitExp rest
      (c :: p.1, p.2)

/-- The NaN alternative of the numeric-string grammar after the optional
sign, `s? NaN digits*`, on the lowercased body. -/
def isNanBody (low : List Char) : Bool :=
  match low with
  | 's' :: 'n' :: 'a' :: 'n' :: rest => rest.all Char.isDigit
  | 'n' :: 'a' :: 'n' :: rest => rest.all Char.isDigit
  | _ => false

/-- The exponent text `sign? digits`, with at least one digit. -/
def expVal? (l : List Char) : Option Int :=
  let signBody : Int × List Char :=
    match l with
    | '-' :: rest => (-1, rest)
    | '+' :: rest => (1, rest)
    | _ => (1, l)
  if signBody.2 ≠ [] ∧ signBody.2.all Char.isDigit then
    some (signBody.1 * natOfDigits signBody.2)
  else none

/-- Model of `Decimal(s)` on a string: `none` where the constructor
raises `InvalidOperation`.  The constructor first strips surrounding
whitespace, then removes every underscore (PEP 515), then matches the
grammar. -/
def pyDecimalParse (l0 : List Char) : Option PyDec :=
  let l := removeChar '_' (trimL l0)
  let signBody : Bool × List Char :=
    match l with
    | '-' :: rest => (true, rest)
    | '+' :: rest => (false, rest)
    | _ => (false, l)
  let low := signBody.2.map Char.toLower
  if low = ['i', 'n', 'f'] ∨ low = ['i', 'n', 'f', 'i', 'n', 'i', 't', 'y'] then
    some (.inf signBody.1)
  else if isNanBody low then some .nan
  else
    let p := splitExp signBody.2
    let e? : Option Int :=
      match p.2 with
      | none => some 0
      | some es => expVal? es
    let ms? : Option (Int × Nat) :=
      match splitOnChar '.' p.1 with
      | [a] =>
        if a ≠ [] ∧ a.all Char.isDigit then some (natOfDigits a, 0) else none
      | [a, b] =>
        if (a ++ b) ≠ [] ∧ a.all Char.isDigit ∧ b.all Char.isDigit then
          some (natOfDigits (a ++ b), b.length)
        else none
      | _ => none
    match ms?, e? with
    | some ms, some e =>
      some (.fin ((if signBody.1 then -1 else 1) * ms.1) ms.2 e)
    | _, _ => none

/-! ### Money parsers -/

/-- Shared cleaning step of both money parsers:
`value.strip().replace('R$', '').replace(' ', '').replace(' ', '')`. -/
def cleanMoney (value : String) : List Char :=
  removeChar ' ' (removeChar ' ' (stripRS (trimL value.data)))

/-- Model of `parse_decimal_ptbr`
(src/app/services/marketplace_adapters.py, lines 44-81): cleaning,
separator disambiguation, then `Decimal(cleaned)` with every raised
`InvalidOperation` caught and mapped to `None`.  The
`isinstance(value, str)` guard disappears in the typed embedding. -/
def parse_decimal_ptbr (value : String) : Option PyDec :=
  let cleaned := cleanMoney value
  if cleaned = [] ∨ cleaned = ['-'] then none
  else
    let cleaned2 :=
      if cleaned.contains ',' ∧ cleaned.contains '.' then
        replaceChar ',' '.' (removeChar '.' cleaned)
      else if cleaned.contains ',' then
        replaceChar ',' '.' cleaned
      else if cleaned.contains '.' then
        if cleaned.count '.' > 1 then removeChar '.' cleaned
        else if ((splitOnChar '.' cleaned).getLastD []).length = 3 ∧
            ((splitOnChar '.' cleaned).headD []).length ≤ 3 then
          removeChar '.' cleaned
        else cleaned
      else cleaned
    pyDecimalParse cleaned2

/-- The final `Decimal(cleaned)` step of `parse_decimal_ptbr_en`: on a
malformed literal the constructor raises `InvalidOperation`, which
propagates to the row loop; the raised message is modelled by the
constant string below. -/
def decOrError (o : Option PyDec) : Except String PyDec :=
  match o with
  | some d => .ok d
  | none => .error "decimal invalido"

/-- Model of `parse_decimal_ptbr_en` (src/app/data/routes.py,
lines 160-182): cleaning, right-most-separator disambiguation, then
`Decimal(cleaned)`.  `value is None` cannot occur in the typed
embedding. -/
def parse_decimal_ptbr_en (value : String) : Except String PyDec :=
  let cleaned := cleanMoney value
  if cleaned = [] then .error "valor_total_venda vazio"
  else
    let commaPos := lastIdx cleaned ','
    let dotPos := lastIdx cleaned '.'
    let cleaned2 :=
      if commaPos ≠ -1 ∨ dotPos ≠ -1 then
        if commaPos > dotPos then replaceChar ',' '.' (removeChar '.' cleaned)
        else removeChar ',' cleaned
      else removeChar '.' (removeChar ',' cleaned)
    decOrError (pyDecimalParse cleaned2)

/-- Separator rule as worded by claim C1 and spec §4.1 (written from
their words, for the refinement theorem of claim C1, not from the code):
after cleaning, when both `,` and `.` appear the right-most one is the
decimal separator and the other is dropped as a thousands separator; when
only `,` appears it is the decimal separator; otherwise the cleaned text
is parsed as is.  `parse_decimal_ptbr_en` is proved to follow this rule
on every input; `parse_decimal_ptbr` does not. -/
def parse_money_rightmost (value : String) : Option PyDec :=
  let c := cleanMoney value
  if c = [] then none
  else if c.contains ',' ∧ c.contains '.' then
    if lastIdx c ',' > lastIdx c '.' then
      pyDecimalParse (replaceChar ',' '.' (removeChar '.' c))
    else pyDecimalParse (removeChar ',' c)
  else if c.contains ',' then pyDecimalParse (replaceChar ',' '.' c)
  else pyDecimalParse c

/-! ### Status normalization -/

/-- Model of Python `str.lower()` on the character domain of the
repository's vocabulary: ASCII letters plus the precomposed accented Latin
letters (identity elsewhere). -/
def pyLowerChar (c : Char) : Char :=
  match c with
  | 'Á' => 'á' | 'À' => 'à' | 'Â' => 'â' | 'Ã' => 'ã' | 'Ä' => 'ä'
  | 'É' => 'é' | 'È' => 'è' | 'Ê' => 'ê' | 'Ë' => 'ë'
  | 'Í' => 'í' | 'Ì' => 'ì' | 'Î' => 'î' | 'Ï' => 'ï'
  | 'Ó' => 'ó' | 'Ò' => 'ò' | 'Ô' => 'ô' | 'Õ' => 'õ' | 'Ö' => 'ö'
  | 'Ú' => 'ú' | 'Ù' => 'ù' | 'Û' => 'û' | 'Ü' => 'ü'
  | 'Ç' => 'ç' | 'Ñ' => 'ñ'
  | c => c.toLower

/-- Model of `unicodedata.normalize('NFKD', ·)` followed by removal of
combining characters, applied per character: each precomposed accented
Latin letter decomposes to its base letter; every other character is
unchanged. -/
def stripAccentChar (c : Char) : Char :=
  match c with
  | 'á' | 'à' | 'â' | 'ã' | 'ä' => 'a'
  | 'é' | 'è' | 'ê' | 'ë' => 'e'
  | 'í' | 'ì' | 'î' | 'ï' => 'i'
  | 'ó' | 'ò' | 'ô' | 'õ' | 'ö' => 'o'
  | 'ú' | 'ù' | 'û' | 'ü' => 'u'
  | 'ç' => 'c'
  | 'ñ' => 'n'
  | 'Á' | 'À' | 'Â' | 'Ã' | 'Ä' => 'A'
  | 'É' | 'È' | 'Ê' | 'Ë' => 'E'
  | 'Í' | 'Ì' | 'Î' | 'Ï' => 'I'
  | 'Ó' | 'Ò' | 'Ô' | 'Õ' | 'Ö' => 'O'
  | 'Ú' | 'Ù' | 'Û' | 'Ü' => 'U'
  | 'Ç' => 'C'
  | 'Ñ' => 'N'
  | c => c

/-- Auxiliary scanner collapsing runs of `_` (keeps the first of a run). -/
def squeezeUnderscoresAux : Char → List Char → List Char
  | _, [] => []
  | prev, c :: rest =>
    if prev = '_' ∧ c = '_' then squeezeUnderscoresAux prev rest
    else c :: squeezeUnderscoresAux c rest

/-- Model of `re.sub(r'_+', '_', s)`. -/
def squeezeUnderscores : List Char → List Char
  | [] => []
  | c :: rest => c :: squeezeUnderscoresAux c rest

/-- Model of `s.strip('_')`. -/
def stripUnderscoresL (l : List Char) : List Char :=
  ((l.dropWhile (· = '_')).reverse.dropWhile (· = '_')).reverse

/-- Shared normalization pipeline of `_normalize_status`
(src/app/services/metrics.py, lines 50-59) and `normalize_status`
(src/app/data/routes.py, lines 185-198): NFKD-decompose and drop
combining characters, lower-case, trim, map spaces and hyphens to `_`,
collapse `_` runs, strip edge `_`. -/
def normalizeStatusKey (value : String) : String :=
  let n1 := value.data.map stripAccentChar
  let n2 := trimL (n1.map pyLowerChar)
  let n3 := replaceChar '-' '_' (replaceChar ' ' '_' n2)
  ⟨stripUnderscoresL (squeezeUnderscores n3)⟩

/-- `STATUS_ALIASES` of src/app/services/metrics.py, lines 16-35
(verbatim; the accented keys are unreachable after normalization but are
kept as the code keeps them). -/
def metricsStatusAliases : List (String × String) :=
  [("concluido", "entregue"), ("concluida", "entregue"),
   ("concluído", "entregue"), ("concluída", "entregue"),
   ("finalizado", "entregue"), ("finalizada", "entregue"),
   ("delivered", "entregue"),
   ("aprovado", "pago"), ("aprovada", "pago"), ("paid", "pago"),
   ("pago", "pago"),
   ("enviado", "enviado"), ("shipped", "enviado"), ("postado", "enviado"),
   ("despachado", "enviado"),
   ("cancelado", "cancelado"), ("cancelada", "cancelado"),
   ("canceled", "cancelado")]

/-- `VALID_STATUSES` of src/app/services/metrics.py, line 14. -/
def metricsValidStatuses : List String := ["pago", "enviado", "entregue"]

/-- The four canonical statuses of the data model. -/
def canonicalStatuses : List String := ["pago", "enviado", "entregue", "cancelado"]

/-- Model of `_normalize_status` (src/app/services/metrics.py,
lines 50-59). -/
def metricsNormalizeStatus (value : String) : String :=
  if value = "" then ""
  else
    let key := normalizeStatusKey value
    (metricsStatusAliases.lookup key).getD key

/-- `STATUS_MAP` of `MercadoLivreAdapter`
(src/app/services/marketplace_adapters.py, lines 119-128). -/
def mlStatusMap : List (String × String) :=
  [("entregue", "entregue"), ("a caminho", "enviado"), ("preparando", "pago"),
   ("cancelado", "cancelado"),
   ("pacote cancelado pelo mercado livre", "cancelado"),
   ("pagamento aprovado", "pago"), ("pronto para envio", "pago"),
   ("em preparação", "pago")]

/-- Model of `MercadoLivreAdapter.normalize_status`
(src/app/services/marketplace_adapters.py, lines 185-200): lower-case and
trim, NFKD-strip accents, then look up `STATUS_MAP` with fallback
`'pago'`. -/
def mlNormalizeStatus (status : String) : String :=
  if status = "" then "pago"
  else
    let lowered := trimL (status.data.map pyLowerChar)
    let normalized : String := ⟨lowered.map stripAccentChar⟩
    (mlStatusMap.lookup normalized).getD "pago"

/-! ### Claim C2 -/

/-- C2: counterexample.  The claim states that a status string that
survives normalization but matches no canonical form or alias is returned
unchanged by the adapters' `normalize_status` as well; the Mercado Livre
adapter instead maps every unrecognized status to the canonical status
`'pago'`. -/
theorem c2_counterexample :
    mlNormalizeStatus "aguardando" = "pago" ∧ ("pago" : String) ≠ "aguardando" := by
  decide

/-- C2: amended claim.  Recognized aliases map to one of the four canonical
statuses and the metrics-side `_normalize_status` returns any
normalized-but-unmapped string unchanged (as its own category, without
failing); the adapters' `normalize_status`, however, always returns one of
the four canonical statuses, mapping every unrecognized or empty status to
`'pago'`. -/
theorem c2_amended :
    (∀ p ∈ metricsStatusAliases, p.2 ∈ canonicalStatuses) ∧
    (∀ s : String, s ≠ "" →
      metricsStatusAliases.lookup (normalizeStatusKey s) = none →
      metricsNormalizeStatus s = normalizeStatusKey s) ∧
    (∀ s : String, mlNormalizeStatus s ∈ canonicalStatuses) := by
  refine ⟨by decide, ?_, ?_⟩
  · intro s hs hn
    simp only [metricsNormalizeStatus, if_neg hs, hn, Option.getD_none]
  · intro s
    by_cases hs : s = ""
    · subst hs; decide
    · simp only [mlNormalizeStatus, if_neg hs, mlStatusMap, List.lookup]
      repeat' split
      all_goals decide

/-- C2: witness for the amended claim, at the unrecognized status
`"Aguardando Pagamento"` (normalized to `"aguardando_pagamento"`) and at
the Mercado Livre adapter. -/
theorem c2_amended_witness :
    metricsNormalizeStatus "Aguardando Pagamento" = "aguardando_pagamento" ∧
      mlNormalizeStatus "Aguardando Pagamento" ∈ canonicalStatuses :=
  ⟨(c2_amended.2.1 "Aguardando Pagamento" (by decide) (by decide)).trans (by decide),
   c2_amended.2.2 "Aguardando Pagamento"⟩

/-! ### Exact decimal rounding -/

/-- Half-even rounding to an integer: the default rounding mode of Python
`Decimal.quantize` (`ROUND_HALF_EVEN`) and of Python `round`. -/
def roundHalfEven (q : ℚ) : ℤ :=
  let f := ⌊q⌋
  let r := q - f
  if r < 1 / 2 then f
  else if 1 / 2 < r then f + 1
  else if f % 2 = 0 then f else f + 1

/-- Half-even rounding to two decimal places: models
`Decimal.quantize(Decimal('0.01'))` and `round(x, 2)` in the metrics
code. -/
def round2 (q : ℚ) : ℚ := (roundHalfEven (q * 100) : ℚ) / 100

/-- `IsCents q` states that `q` is a whole number of hundredths.  Every
monetary column of the `Sale` table is `Numeric(12, 2)`
(src/app/models.py), so every stored amount satisfies it. -/
def IsCents (q : ℚ) : Prop := ∃ n : ℤ, q = (n : ℚ) / 100

theorem isCents_add {a b : ℚ} (ha : IsCents a) (hb : IsCents b) :
    IsCents (a + b) := by
  obtain ⟨m, hm⟩ := ha
  obtain ⟨n, hn⟩ := hb
  exact ⟨m + n, by push_cast [hm, hn]; ring⟩

theorem isCents_sum {l : List ℚ} (h : ∀ q ∈ l, IsCents q) : IsCents l.sum := by
  induction l with
  | nil => exact ⟨0, by norm_num⟩
  | cons a t ih =>
    rw [List.sum_cons]
    exact isCents_add (h a (List.mem_cons_self a t))
      (ih fun q hq => h q (List.mem_cons_of_mem a hq))

theorem roundHalfEven_intCast (n : ℤ) : roundHalfEven (n : ℚ) = n := by
  simp [roundHalfEven]

theorem round2_eq_self {q : ℚ} (h : IsCents q) : round2 q = q := by
  obtain ⟨n, hn⟩ := h
  have h100 : q * 100 = (n : ℚ) := by rw [hn]; ring
  rw [round2, h100, roundHalfEven_intCast, ← h100]
  ring

/-! ### Calendar dates -/

/-- Model of Python `datetime.date`: a year/month/day triple. -/
structure PyDate where
  year : Nat
  month : Nat
  day : Nat
deriving DecidableEq, Repr

/-- Python date comparison `a < b` (lexicographic on year, month, day). -/
def PyDate.ltB (a b : PyDate) : Bool :=
  if a.year ≠ b.year then decide (a.year < b.year)
  else if a.month ≠ b.month then decide (a.month < b.month)
  else decide (a.day < b.day)

/-- Python date comparison `a <= b`. -/
def PyDate.leB (a b : PyDate) : Bool :=
  if a.year ≠ b.year then decide (a.year < b.year)
  else if a.month ≠ b.month then decide (a.month < b.month)
  else decide (a.day ≤ b.day)

/-- Gregorian leap-year rule, as implemented by Python `datetime`. -/
def isLeapYear (y : Nat) : Bool :=
  decide ((y % 4 = 0 ∧ ¬y % 100 = 0) ∨ y % 400 = 0)

/-- Number of days of month `m` of year `y` (Python `calendar` rule). -/
def daysInMonth (y m : Nat) : Nat :=
  if m = 2 then (if isLeapYear y then 29 else 28)
  else if m = 4 ∨ m = 6 ∨ m = 9 ∨ m = 11 then 30
  else 31

/-- Days in year `y` before month `m`. -/
def daysBeforeMonth (y m : Nat) : Nat :=
  (List.range (m - 1)).foldl (fun acc i => acc + daysInMonth y (i + 1)) 0

/-- Proleptic Gregorian ordinal of a date, as Python `date.toordinal`
(day 1 is 0001-01-01). -/
def toOrdinalNat (d : PyDate) : Nat :=
  let y := d.year - 1
  365 * y + y / 4 - y / 100 + y / 400 + daysBeforeMonth d.year d.month + d.day

/-- Model of Python `(a - b).days` for dates. -/
def daysBetween (a b : PyDate) : Int :=
  (toOrdinalNat a : Int) - (toOrdinalNat b : Int)

/-- Model of `_month_key` (src/app/services/metrics.py, lines 334-335). -/
def monthKey (d : PyDate) : Nat × Nat := (d.year, d.month)

/-- Month offset `(purchase_year - cohort_year) * 12 +
(purchase_month - cohort_month)` (src/app/services/metrics.py,
line 1035). -/
def monthsDiff (cohort : Nat × Nat) (p : Nat × Nat) : Int :=
  ((p.1 : Int) - (cohort.1 : Int)) * 12 + ((p.2 : Int) - (cohort.2 : Int))

/-! ### Ingestion date parsing (`parse_date` of src/app/data/routes.py) -/

/-- The fields of the `Sale` model (src/app/models.py) read by the
embedded metrics functions. -/
structure Sale where
  sku : String
  nome_produto : String
  status_pedido : String
  data_venda : PyDate
  valor_total_venda : ℚ
  comprador : Option String
deriving DecidableEq, Repr

/-- Records whose normalized status is in `VALID_STATUSES` — the
`if normalized in VALID_STATUSES` branch shared by `get_kpis`,
`sales_timeseries`, `abc_by_revenue` and the other normalized-status
metrics. -/
def validSales (rs : List Sale) : List Sale :=
  rs.filter (fun r => metricsNormalizeStatus r.status_pedido ∈ metricsValidStatuses)

/-- Records whose normalized status is `CANCELLED_STATUS`; the code's
`elif` guard is equivalent because `'cancelado'` is not in the valid
set. -/
def cancelledSales (rs : List Sale) : List Sale :=
  rs.filter (fun r => metricsNormalizeStatus r.status_pedido = "cancelado")

/-- Return value of `get_kpis`; `pedidos_totais` is returned by the code
as `float(count)` and kept here as the count. -/
structure Kpis where
  faturamento : ℚ
  pedidos_totais : Nat
  ticket_medio : ℚ
  taxa_cancelamento : ℚ
deriving DecidableEq, Repr

/-- Model of `get_kpis` (src/app/services/metrics.py, lines 62-104).  The
SQL `GROUP BY status` rows followed by per-group accumulation are
modelled by accumulating directly over the records: group sums add up to
the same totals and group counts to the same counts. -/
def get_kpis (rs : List Sale) : Kpis :=
  let fat := ((validSales rs).map (fun r => r.valor_total_venda)).sum
  let pedidos := (validSales rs).length
  let cancelados := (cancelledSales rs).length
  let total := pedidos + cancelados
  { faturamento := round2 fat
    pedidos_totais := pedidos
    ticket_medio := round2 (if pedidos ≠ 0 then fat / (pedidos : ℚ) else 0)
    taxa_cancelamento :=
      if total ≠ 0 then round2 ((cancelados : ℚ) / (total : ℚ) * 100) else 0 }

/-- Claim-side KPI formulas, written from the spec's words (§4.4), with
the amendment that the two derived ratios carry the code's two-decimal
rounding: revenue = sum of gross amounts over valid-status records, order
count = count of the same, average ticket = revenue / order count (`0`
with no orders), cancellation rate = cancelled / (valid + cancelled) × 100
(`0` when the denominator is 0). -/
def kpisPerSpec (rs : List Sale) : Kpis :=
  let fat := ((validSales rs).map (fun r => r.valor_total_venda)).sum
  let pedidos := (validSales rs).length
  let cancelados := (cancelledSales rs).length
  let total := pedidos + cancelados
  { faturamento := fat
    pedidos_totais := pedidos
    ticket_medio := if pedidos = 0 then 0 else round2 (fat / (pedidos : ℚ))
    taxa_cancelamento :=
      if total = 0 then 0 else round2 ((cancelados : ℚ) / (total : ℚ) * 100) }

/-- Return value of `sales_timeseries`: date labels (the code emits
`isoformat()` strings) with one revenue value per label. -/
structure SeriesOut where
  labels : List PyDate
  values : List ℚ
deriving DecidableEq, Repr

/-- Model of `sales_timeseries` (src/app/services/metrics.py,
lines 107-148): valid-status revenue grouped by sale date, dates in
ascending order (the code sorts the `isoformat()` keys, which order
exactly as the dates), each value quantized to two decimals. -/
def sales_timeseries (rs : List Sale) : SeriesOut :=
  let dates := List.insertionSort (fun a b => PyDate.leB a b = true)
    (((validSales rs).map (fun r => r.data_venda)).dedup)
  { labels := dates
    values := dates.map (fun d =>
      round2 ((((validSales rs).filter (fun r => r.data_venda = d)).map
        (fun r => r.valor_total_venda)).sum)) }

/-! ### Claim C3 -/

/-- First record of the C3 counterexample collection. -/
def c3r1 : Sale := ⟨"SKU1", "Widget", "pago", ⟨2025, 1, 5⟩, 10, none⟩

/-- Second record of the C3 counterexample collection. -/
def c3r2 : Sale := ⟨"SKU1", "Widget", "pago", ⟨2025, 1, 6⟩, 10.01, none⟩

/-- Third record of the C3 counterexample collection. -/
def c3r3 : Sale := ⟨"SKU1", "Widget", "cancelado", ⟨2025, 1, 7⟩, 5, none⟩

/-- C3: counterexample.  The claim asks for cancellation rate exactly
`cancelled / (valid + cancelled) × 100` and average ticket exactly
`revenue / order count`; the code rounds both to two decimal places, so
with 2 valid orders totalling 20.01 and 1 cancelled order it returns rate
`33.33 ≠ 100/3` and ticket `10.00 ≠ 10.005`. -/
theorem c3_counterexample :
    (get_kpis [c3r1, c3r2, c3r3]).taxa_cancelamento = 3333 / 100 ∧
      ((3333 : ℚ) / 100) ≠ (1 : ℚ) / 3 * 100 ∧
      (get_kpis [c3r1, c3r2, c3r3]).ticket_medio = 10 ∧
      ((10 : ℚ)) ≠ (20.01 : ℚ) / 2 := by
  have hval : validSales [c3r1, c3r2, c3r3] = [c3r1, c3r2] := rfl
  have hcan : cancelledSales [c3r1, c3r2, c3r3] = [c3r3] := rfl
  refine ⟨?_, by norm_num, ?_, by norm_num⟩
  · simp only [get_kpis]
    simp only [hval, hcan]
    simp only [List.length_cons, List.length_nil]
    norm_num [round2, roundHalfEven]
  · simp only [get_kpis]
    simp only [hval, hcan]
    simp only [List.length_cons, List.length_nil, List.map_cons, List.map_nil,
      List.sum_cons, List.sum_nil, c3r1, c3r2]
    norm_num [round2, roundHalfEven]

/-- C3: amended claim.  For cent-valued amounts (the `Numeric(12, 2)`
columns), `get_kpis` returns exactly the spec's formulas with the two
derived ratios rounded half-even to two decimal places: revenue = sum of
gross amounts over valid-status records, order count = count of the same,
cancellation rate = cancelled / (valid + cancelled) × 100 rounded (`0`
when the denominator is 0), average ticket = revenue / order count
rounded (`0` with no orders). -/
theorem c3_kpis (rs : List Sale) (h : ∀ r ∈ rs, IsCents r.valor_total_venda) :
    get_kpis rs = kpisPerSpec rs := by
  have hfat : IsCents (((validSales rs).map (fun r => r.valor_total_venda)).sum) := by
    refine isCents_sum fun q hq => ?_
    obtain ⟨r, hr, rfl⟩ := List.mem_map.mp hq
    exact h r (List.mem_of_mem_filter hr)
  unfold get_kpis kpisPerSpec
  simp only [Kpis.mk.injEq]
  refine ⟨round2_eq_self hfat, trivial, ?_, ?_⟩
  · by_cases hp : (validSales rs).length = 0
    · simp only [hp]
      norm_num [round2, roundHalfEven]
    · simp [hp]
  · by_cases ht : (validSales rs).length + (cancelledSales rs).length = 0
    · simp [ht]
    · simp [ht]

/-- First record of the C3 witness scenario (the spec's scenario row
`("2025-01-05","SKU1","Widget","pago","10,50")`). -/
def c3s1 : Sale := ⟨"SKU1", "Widget", "pago", ⟨2025, 1, 5⟩, 10.50, none⟩

/-- Second record of the C3 witness scenario (the cancelled 5.00 sale). -/
def c3s2 : Sale := ⟨"SKU1", "Widget", "cancelado", ⟨2025, 1, 6⟩, 5, none⟩

/-- C3: witness at the spec's two-record scenario — revenue 10.50, order
count 1, cancellation rate 50.0. -/
theorem c3_kpis_witness :
    (∀ r ∈ [c3s1, c3s2], IsCents r.valor_total_venda) ∧
      get_kpis [c3s1, c3s2] = kpisPerSpec [c3s1, c3s2] ∧
      get_kpis [c3s1, c3s2] = ⟨10.50, 1, 10.50, 50⟩ := by
  have hc : ∀ r ∈ [c3s1, c3s2], IsCents r.valor_total_venda := by
    intro r hr
    rcases List.mem_cons.mp hr with rfl | hr
    · exact ⟨1050, by norm_num [c3s1]⟩
    rcases List.mem_cons.mp hr with rfl | hr
    · exact ⟨500, by norm_num [c3s2]⟩
    · simp at hr
  refine ⟨hc, c3_kpis _ hc, ?_⟩
  have hval : validSales [c3s1, c3s2] = [c3s1] := rfl
  have hcan : cancelledSales [c3s1, c3s2] = [c3s2] := rfl
  simp only [get_kpis]
  rw [hval, hcan]
  simp only [List.length_cons, List.length_nil, List.map_cons, List.map_nil,
    List.sum_cons, List.sum_nil, c3s1, Kpis.mk.injEq]
  norm_num [round2, roundHalfEven]

/-! ### Claim C6 -/

theorem sum_map_ite_of_mem {K : Type} [DecidableEq K] (c : K) (v : ℚ) :
    ∀ keys : List K, keys.Nodup → c ∈ keys →
      (keys.map (fun d => if c = d then v else (0 : ℚ))).sum = v := by
  intro keys
  induction keys with
  | nil => intro _ h; simp at h
  | cons k t ih =>
    intro hnd hm
    rcases List.mem_cons.mp hm with rfl | hm
    · have hz : (t.map (fun d => if c = d then v else (0 : ℚ))).sum = 0 := by
        refine List.sum_eq_zero fun x hx => ?_
        obtain ⟨d, hd, rfl⟩ := List.mem_map.mp hx
        have : c ≠ d := fun hcd => (List.nodup_cons.mp hnd).1 (hcd ▸ hd)
        simp [this]
      simp [hz]
    · have hck : c ≠ k := fun hcd => (List.nodup_cons.mp hnd).1 (hcd ▸ hm)
      simp [hck, ih (List.nodup_cons.mp hnd).2 hm]

theorem sum_fiberwise_by_keys {α K : Type} [DecidableEq K] (key : α → K)
    (f : α → ℚ) (keys : List K) (l : List α) (hnd : keys.Nodup)
    (hcov : ∀ x ∈ l, key x ∈ keys) :
    (keys.map (fun d => ((l.filter (fun x => key x = d)).map f).sum)).sum
      = (l.map f).sum := by
  induction l with
  | nil => simp
  | cons x t ih =>
    have hstep : ∀ d ∈ keys,
        (((x :: t).filter (fun x => key x = d)).map f).sum
          = (if key x = d then f x else 0)
            + ((t.filter (fun x => key x = d)).map f).sum := by
      intro d _
      by_cases hxd : key x = d
      · simp [List.filter_cons, hxd]
      · simp [List.filter_cons, hxd]
    rw [List.map_congr_left hstep]
    rw [List.sum_map_add]
    rw [ih fun y hy => hcov y (List.mem_cons_of_mem x hy)]
    have hx := hcov x (List.mem_cons_self x t)
    rw [List.map_cons, List.sum_cons]
    congr 1
    simpa using sum_map_ite_of_mem (key x) (f x) keys hnd hx

/-- C6: for cent-valued amounts (the `Numeric(12, 2)` columns), the KPI
summary's revenue equals the sum of all values of the time series
computed over the same record collection: both restrict to valid-status
records and total the same gross amounts. -/
theorem c6_kpi_eq_timeseries_sum (rs : List Sale)
    (h : ∀ r ∈ rs, IsCents r.valor_total_venda) :
    (get_kpis rs).faturamento = (sales_timeseries rs).values.sum := by
  have hcents : ∀ r ∈ validSales rs, IsCents r.valor_total_venda :=
    fun r hr => h r (List.mem_of_mem_filter hr)
  have hfat : IsCents (((validSales rs).map (fun r => r.valor_total_venda)).sum) := by
    refine isCents_sum fun q hq => ?_
    obtain ⟨r, hr, rfl⟩ := List.mem_map.mp hq
    exact hcents r hr
  have hdates :
      (List.insertionSort (fun a b => PyDate.leB a b = true)
        (((validSales rs).map (fun r => r.data_venda)).dedup)).Nodup :=
    (List.perm_insertionSort _ _).symm.nodup
      (List.nodup_dedup _)
  have hcov : ∀ x ∈ validSales rs,
      x.data_venda ∈ List.insertionSort (fun a b => PyDate.leB a b = true)
        (((validSales rs).map (fun r => r.data_venda)).dedup) := by
    intro x hx
    have : x.data_venda ∈ ((validSales rs).map (fun r => r.data_venda)).dedup :=
      List.mem_dedup.mpr (List.mem_map_of_mem _ hx)
    exact ((List.perm_insertionSort _ _).mem_iff).mpr this
  have hpt : ∀ d ∈ List.insertionSort (fun a b => PyDate.leB a b = true)
      (((validSales rs).map (fun r : Sale => r.data_venda)).dedup),
      round2 ((((validSales rs).filter (fun r : Sale => r.data_venda = d)).map
        (fun r : Sale => r.valor_total_venda)).sum)
        = (((validSales rs).filter (fun r : Sale => r.data_venda = d)).map
            (fun r : Sale => r.valor_total_venda)).sum := by
    intro d _
    refine round2_eq_self (isCents_sum fun q hq => ?_)
    obtain ⟨r, hr, rfl⟩ := List.mem_map.mp hq
    exact hcents r (List.mem_of_mem_filter hr)
  show round2 (((validSales rs).map (fun r => r.valor_total_venda)).sum) = _
  rw [round2_eq_self hfat]
  simp only [sales_timeseries]
  rw [List.map_congr_left hpt]
  exact (sum_fiberwise_by_keys (fun r : Sale => r.data_venda)
    (fun r : Sale => r.valor_total_venda) _ _ hdates hcov).symm

/-- C6: witness at a concrete two-date collection. -/
theorem c6_witness :
    (∀ r ∈ [c3r1, c3r2, c3r3], IsCents r.valor_total_venda) ∧
      (get_kpis [c3r1, c3r2, c3r3]).faturamento
        = (sales_timeseries [c3r1, c3r2, c3r3]).values.sum := by
  have hc : ∀ r ∈ [c3r1, c3r2, c3r3], IsCents r.valor_total_venda := by
    intro r hr
    rcases List.mem_cons.mp hr with rfl | hr
    · exact ⟨1000, by norm_num [c3r1]⟩
    rcases List.mem_cons.mp hr with rfl | hr
    · exact ⟨1001, by norm_num [c3r2]⟩
    rcases List.mem_cons.mp hr with rfl | hr
    · exact ⟨500, by norm_num [c3r3]⟩
    · simp at hr
  exact ⟨hc, c6_kpi_eq_timeseries_sum _ hc⟩

/-! ### Price tiers -/

/-- Model of `categorize_price_range` (src/app/data/routes.py,
lines 221-230). -/
def categorize_price_range (price : Option ℚ) : Option String :=
  match price with
  | none => none
  | some p =>
    if p < 50 then some "Baixo"
    else if p ≤ 200 then some "Médio"
    else some "Alto"

/-- Model of Python `preco_unitario or valor_total`: `Decimal` truthiness
makes `or` skip a present-but-zero unit price. -/
def pyOrDec (u : Option ℚ) (v : ℚ) : ℚ :=
  match u with
  | some x => if x = 0 then v else x
  | none => v

/-- Price-tier assignment of the CSV upload path
(src/app/data/routes.py, line 509):
`categorize_price_range(preco_unitario or valor_total)`. -/
def routesFaixaPreco (preco_unitario : Option ℚ) (valor_total : ℚ) : Option String :=
  categorize_price_range (some (pyOrDec preco_unitario valor_total))

/-- Price-tier assignment of `MercadoLivreAdapter.process_row`
(src/app/services/marketplace_adapters.py, lines 255-263):
`preco = preco_unitario or valor_total; if preco: ...`, so no tier is
assigned when `preco` is zero.  (`ShopeeAdapter.process_row`,
lines 466-474, is identical.) -/
def mlFaixaPreco (preco_unitario : Option ℚ) (valor_total : ℚ) : Option String :=
  let preco := pyOrDec preco_unitario valor_total
  if preco ≠ 0 then
    if preco < 50 then some "Baixo"
    else if preco ≤ 200 then some "Médio"
    else some "Alto"
  else none

/-! ### Claim C9 -/

/-- C9: counterexample.  With `unit_price` present and equal to `0` and
`gross_amount = 300`, the claim's reference price is the present
`unit_price`, so the tier should be `low` (`0 < 50`); the upload path
instead skips the zero unit price (Python `or` truthiness) and returns
`Alto`, and the Mercado Livre adapter assigns no tier at all when the
chosen price is `0`. -/
theorem c9_counterexample :
    routesFaixaPreco (some 0) 300 = some "Alto" ∧
      (some "Alto" : Option String) ≠ some "Baixo" ∧
      mlFaixaPreco none 0 = none := by
  refine ⟨?_, by decide, ?_⟩
  · simp only [routesFaixaPreco, pyOrDec, categorize_price_range, if_pos rfl]
    norm_num
  · simp [mlFaixaPreco, pyOrDec]

/-- C9: amended claim.  With reference price = `unit_price` when it is
present and nonzero, else `gross_amount`: the upload path assigns `low`
iff reference < 50, `medium` iff 50 ≤ reference ≤ 200 and `high` iff
reference > 200; the marketplace adapters assign the same tiers except
that they assign no tier when the reference price is 0. -/
theorem c9_price_tier (u : Option ℚ) (v : ℚ) :
    (routesFaixaPreco u v = some "Baixo" ↔ pyOrDec u v < 50) ∧
      (routesFaixaPreco u v = some "Médio" ↔
        50 ≤ pyOrDec u v ∧ pyOrDec u v ≤ 200) ∧
      (routesFaixaPreco u v = some "Alto" ↔ 200 < pyOrDec u v) ∧
      (mlFaixaPreco u v
        = if pyOrDec u v = 0 then none else routesFaixaPreco u v) := by
  have hBM : ("Baixo" : String) ≠ "Médio" := by decide
  have hBA : ("Baixo" : String) ≠ "Alto" := by decide
  have hMA : ("Médio" : String) ≠ "Alto" := by decide
  simp only [routesFaixaPreco, mlFaixaPreco, categorize_price_range]
  refine ⟨?_, ?_, ?_, ?_⟩ <;> split_ifs <;> simp_all <;> linarith

/-! ### ABC / Pareto classification (`abc_by_revenue`) -/

/-- One output row of `abc_by_revenue` (src/app/services/metrics.py,
lines 243-250). -/
structure AbcEntry where
  sku : String
  nome_produto : String
  faturamento : ℚ
  percentual : ℚ
  percentual_acumulado : ℚ
  classe : String
deriving DecidableEq, Repr

/-- Per-SKU totals of `abc_by_revenue` (src/app/services/metrics.py,
lines 207-218): valid-status records aggregated by SKU in
first-encountered order.  The product name attached to a SKU is the one
of its first record (the code stores the name of the first aggregated
row; no claim depends on which row that is). -/
def abcTotals (rs : List Sale) : List (String × String × ℚ) :=
  ((validSales rs).map (fun r => r.sku)).dedup.map
    (fun k =>
      (k, (((validSales rs).filter (fun r => r.sku = k)).map
            (fun r => r.nome_produto)).headD "",
        (((validSales rs).filter (fun r => r.sku = k)).map
          (fun r => r.valor_total_venda)).sum))

/-- Python `sorted(..., key=total, reverse=True)` of the per-SKU totals
(src/app/services/metrics.py, lines 220-224), modelled by a stable
insertion sort on the descending-total order. -/
def abcSorted (rs : List Sale) : List (String × String × ℚ) :=
  List.insertionSort (fun a b => b.2.2 ≤ a.2.2) (abcTotals rs)

/-- `total_revenue` of `abc_by_revenue` (src/app/services/metrics.py,
lines 226-227): the sum over the sorted per-SKU totals (`or Decimal(0)`
changes nothing for a sum). -/
def abc_total_revenue (rs : List Sale) : ℚ :=
  ((abcSorted rs).map (fun p => p.2.2)).sum

/-- Revenue share of one SKU: `(total / total_revenue * 100) if
total_revenue else 0` (src/app/services/metrics.py, line 233). -/
def percOf (total t : ℚ) : ℚ := if total ≠ 0 then t / total * 100 else 0

/-- The output loop of `abc_by_revenue` (src/app/services/metrics.py,
lines 229-250) with the default thresholds `{'A': 0.8, 'B': 0.95}`:
running cumulative percentage and class per row. -/
def abcRows (total : ℚ) : ℚ → List (String × String × ℚ) → List AbcEntry
  | _, [] => []
  | acc, (sku, nome, t) :: rest =>
    let perc := percOf total t
    let acc2 := acc + perc
    let classe :=
      if acc2 / 100 ≤ 0.8 then "A"
      else if acc2 / 100 ≤ 0.95 then "B"
      else "C"
    ⟨sku, nome, t, perc, acc2, classe⟩ :: abcRows total acc2 rest

/-- Model of `abc_by_revenue` (src/app/services/metrics.py,
lines 183-252) with the default thresholds. -/
def abc_by_revenue (rs : List Sale) : List AbcEntry :=
  abcRows (abc_total_revenue rs) 0 (abcSorted rs)

theorem abcRows_map_faturamento (total : ℚ) :
    ∀ (acc : ℚ) (l : List (String × String × ℚ)),
      (abcRows total acc l).map (fun e => e.faturamento)
        = l.map (fun p => p.2.2) := by
  intro acc l
  induction l generalizing acc with
  | nil => rfl
  | cons p rest ih => cases p with
    | mk sku q => cases q with
      | mk nome t => simp [abcRows, ih]

theorem abcRows_cum_mono (total : ℚ) (h0 : 0 ≤ total) :
    ∀ (l : List (String × String × ℚ)) (acc : ℚ),
      (∀ p ∈ l, 0 ≤ p.2.2) →
      List.Sorted (· ≤ ·)
          ((abcRows total acc l).map (fun e => e.percentual_acumulado)) ∧
        ∀ x ∈ (abcRows total acc l).map (fun e => e.percentual_acumulado),
          acc ≤ x := by
  intro l
  induction l with
  | nil =>
    intro acc _
    refine ⟨by simp [abcRows], by simp [abcRows]⟩
  | cons p rest ih =>
    intro acc hl
    obtain ⟨sku, nome, t⟩ := p
    have ht : 0 ≤ t := hl _ (List.mem_cons_self _ _)
    have hperc : 0 ≤ percOf total t := by
      rw [percOf]
      split_ifs
      · exact mul_nonneg (div_nonneg ht h0) (by norm_num)
      · exact le_refl 0
    have hrest := ih (acc + percOf total t)
      (fun q hq => hl q (List.mem_cons_of_mem _ hq))
    simp only [abcRows, List.map_cons, List.sorted_cons, List.mem_cons]
    refine ⟨⟨fun b hb => hrest.2 b hb, hrest.1⟩, fun x hx => ?_⟩
    rcases hx with rfl | hx
    · linarith
    · linarith [hrest.2 x hx]

theorem abcRows_cum_last (total : ℚ) :
    ∀ (l : List (String × String × ℚ)) (acc : ℚ),
      ((abcRows total acc l).map
        (fun e => e.percentual_acumulado)).getLastD acc
        = acc + (l.map (fun p => percOf total p.2.2)).sum := by
  intro l
  induction l with
  | nil => intro acc; simp [abcRows]
  | cons p rest ih =>
    intro acc
    obtain ⟨sku, nome, t⟩ := p
    simp only [abcRows, List.map_cons, List.sum_cons, List.getLastD_cons, ih]
    ring

theorem abcRows_classe (total : ℚ) :
    ∀ (l : List (String × String × ℚ)) (acc : ℚ),
      ∀ e ∈ abcRows total acc l,
        e.classe =
          if e.percentual_acumulado / 100 ≤ 0.8 then "A"
          else if e.percentual_acumulado / 100 ≤ 0.95 then "B"
          else "C" := by
  intro l
  induction l with
  | nil => intro acc e he; simp [abcRows] at he
  | cons p rest ih =>
    intro acc e he
    obtain ⟨sku, nome, t⟩ := p
    rcases List.mem_cons.mp he with rfl | he
    · rfl
    · exact ih _ e he

instance : IsTotal (String × String × ℚ) (fun a b => b.2.2 ≤ a.2.2) :=
  ⟨fun a b => le_total b.2.2 a.2.2⟩

instance : IsTrans (String × String × ℚ) (fun a b => b.2.2 ≤ a.2.2) :=
  ⟨fun _ _ _ hab hbc => le_trans hbc hab⟩

theorem abcTotals_nonneg (rs : List Sale)
    (h : ∀ r ∈ rs, 0 ≤ r.valor_total_venda) :
    ∀ p ∈ abcTotals rs, 0 ≤ p.2.2 := by
  intro p hp
  obtain ⟨k, _, rfl⟩ := List.mem_map.mp hp
  refine List.sum_nonneg fun q hq => ?_
  obtain ⟨r, hr, rfl⟩ := List.mem_map.mp hq
  exact h r (List.mem_of_mem_filter (List.mem_of_mem_filter hr))

theorem abcSorted_nonneg (rs : List Sale)
    (h : ∀ r ∈ rs, 0 ≤ r.valor_total_venda) :
    ∀ p ∈ abcSorted rs, 0 ≤ p.2.2 := by
  intro p hp
  exact abcTotals_nonneg rs h p
    (((List.perm_insertionSort _ _).mem_iff).mp hp)

/-! ### Claim C4 -/

/-- First record of the C4 counterexample collection. -/
def c4n1 : Sale := ⟨"A", "ProdA", "pago", ⟨2025, 1, 5⟩, 200, none⟩

/-- Second record of the C4 counterexample collection (negative gross
amount, reachable since `parse_decimal_ptbr_en` accepts `"-100,00"` and
nothing enforces non-negativity). -/
def c4n2 : Sale := ⟨"B", "ProdB", "pago", ⟨2025, 1, 6⟩, -100, none⟩

/-- C4: counterexample.  On a collection with a negative per-SKU total the
total revenue is `100 > 0` yet the cumulative-percentage sequence is
`[200, 100]`, which is not monotonically non-decreasing. -/
theorem c4_counterexample :
    abc_total_revenue [c4n1, c4n2] = 100 ∧
      (abc_by_revenue [c4n1, c4n2]).map (fun e => e.percentual_acumulado)
        = [200, 100] ∧
      ¬ List.Sorted (· ≤ ·)
        ((abc_by_revenue [c4n1, c4n2]).map (fun e => e.percentual_acumulado)) := by
  have ht : abcTotals [c4n1, c4n2]
      = [("A", "ProdA", (200 : ℚ)), ("B", "ProdB", (-100 : ℚ))] := by
    have h1 : ((validSales [c4n1, c4n2]).map (fun r : Sale => r.sku)).dedup
        = ["A", "B"] := rfl
    have h2 : (validSales [c4n1, c4n2]).filter (fun r : Sale => r.sku = "A")
        = [c4n1] := rfl
    have h3 : (validSales [c4n1, c4n2]).filter (fun r : Sale => r.sku = "B")
        = [c4n2] := rfl
    unfold abcTotals
    rw [h1, List.map_cons, List.map_cons, List.map_nil]
    rw [h2, h3]
    simp only [List.map_cons, List.map_nil, List.headD_cons,
      List.sum_cons, List.sum_nil, c4n1, c4n2]
    norm_num
  have hs : abcSorted [c4n1, c4n2]
      = [("A", "ProdA", (200 : ℚ)), ("B", "ProdB", (-100 : ℚ))] := by
    rw [abcSorted, ht]
    simp only [List.insertionSort, List.orderedInsert]
    norm_num
  have htot : abc_total_revenue [c4n1, c4n2] = 100 := by
    rw [abc_total_revenue, hs]
    simp only [List.map_cons, List.map_nil, List.sum_cons, List.sum_nil]
    norm_num
  have hmap : (abc_by_revenue [c4n1, c4n2]).map (fun e => e.percentual_acumulado)
      = [200, 100] := by
    rw [abc_by_revenue, htot, hs]
    simp only [abcRows, percOf, List.map_cons, List.map_nil]
    norm_num
  refine ⟨htot, hmap, ?_⟩
  rw [hmap]
  simp only [List.sorted_cons, List.mem_cons, List.mem_singleton]
  norm_num

/-- C4: amended claim.  The ABC output is always sorted descending by
per-SKU revenue, and each SKU is classed `A` while the cumulative ratio
is ≤ 0.80, `B` while ≤ 0.95, else `C`; provided additionally that every
record's gross amount is non-negative, the cumulative-percentage sequence
is monotonically non-decreasing, with final value exactly 100 whenever
total revenue is positive. -/
theorem c4_abc (rs : List Sale) :
    List.Sorted (fun a b => b ≤ a)
        ((abc_by_revenue rs).map (fun e => e.faturamento)) ∧
      (∀ e ∈ abc_by_revenue rs,
        e.classe =
          if e.percentual_acumulado / 100 ≤ 0.8 then "A"
          else if e.percentual_acumulado / 100 ≤ 0.95 then "B"
          else "C") ∧
      ((∀ r ∈ rs, 0 ≤ r.valor_total_venda) →
        List.Sorted (· ≤ ·)
            ((abc_by_revenue rs).map (fun e => e.percentual_acumulado)) ∧
          (0 < abc_total_revenue rs →
            ((abc_by_revenue rs).map
              (fun e => e.percentual_acumulado)).getLastD 0 = 100)) := by
  refine ⟨?_, ?_, ?_⟩
  · rw [abc_by_revenue, abcRows_map_faturamento]
    have hsorted : List.Sorted (fun a b => b.2.2 ≤ a.2.2) (abcSorted rs) :=
      List.sorted_insertionSort _ _
    exact List.pairwise_map.mpr hsorted
  · exact fun e he => abcRows_classe _ _ _ e he
  · intro h
    have hnn := abcSorted_nonneg rs h
    have htot : 0 ≤ abc_total_revenue rs :=
      List.sum_nonneg fun x hx => by
        obtain ⟨p, hp, rfl⟩ := List.mem_map.mp hx
        exact hnn p hp
    constructor
    · exact (abcRows_cum_mono _ htot _ 0 hnn).1
    · intro hpos
      have hne : abc_total_revenue rs ≠ 0 := ne_of_gt hpos
      rw [abc_by_revenue, abcRows_cum_last]
      have hcong : (abcSorted rs).map
          (fun p => percOf (abc_total_revenue rs) p.2.2)
          = (abcSorted rs).map
              (fun p => p.2.2 * (100 / abc_total_revenue rs)) := by
        refine List.map_congr_left fun p _ => ?_
        rw [percOf, if_pos hne]
        field_simp
      rw [hcong, List.sum_map_mul_right]
      rw [show ((abcSorted rs).map (fun p => p.2.2)).sum
        = abc_total_revenue rs from rfl]
      field_simp

/-- First C4 witness record (revenue 80). -/
def c4w1 : Sale := ⟨"A", "ProdA", "pago", ⟨2025, 1, 5⟩, 80, none⟩

/-- Second C4 witness record (revenue 15). -/
def c4w2 : Sale := ⟨"B", "ProdB", "pago", ⟨2025, 1, 6⟩, 15, none⟩

/-- Third C4 witness record (revenue 5). -/
def c4w3 : Sale := ⟨"C", "ProdC", "pago", ⟨2025, 1, 7⟩, 5, none⟩

/-- C4: witness at a three-SKU collection (revenues 80, 15, 5) with
positive total revenue. -/
theorem c4_abc_witness :
    (∀ r ∈ [c4w1, c4w2, c4w3], 0 ≤ r.valor_total_venda) ∧
      0 < abc_total_revenue [c4w1, c4w2, c4w3] ∧
      List.Sorted (· ≤ ·)
          ((abc_by_revenue [c4w1, c4w2, c4w3]).map
            (fun e => e.percentual_acumulado)) ∧
      ((abc_by_revenue [c4w1, c4w2, c4w3]).map
        (fun e => e.percentual_acumulado)).getLastD 0 = 100 := by
  have hpos : ∀ r ∈ [c4w1, c4w2, c4w3], 0 ≤ r.valor_total_venda := by
    intro r hr
    rcases List.mem_cons.mp hr with rfl | hr
    · norm_num [c4w1]
    rcases List.mem_cons.mp hr with rfl | hr
    · norm_num [c4w2]
    rcases List.mem_cons.mp hr with rfl | hr
    · norm_num [c4w3]
    · simp at hr
  have htot : 0 < abc_total_revenue [c4w1, c4w2, c4w3] := by
    have ht : abcTotals [c4w1, c4w2, c4w3]
        = [("A", "ProdA", (80 : ℚ)), ("B", "ProdB", (15 : ℚ)),
           ("C", "ProdC", (5 : ℚ))] := by
      have h1 : ((validSales [c4w1, c4w2, c4w3]).map (fun r : Sale => r.sku)).dedup
          = ["A", "B", "C"] := rfl
      have h2 : (validSales [c4w1, c4w2, c4w3]).filter (fun r : Sale => r.sku = "A")
          = [c4w1] := rfl
      have h3 : (validSales [c4w1, c4w2, c4w3]).filter (fun r : Sale => r.sku = "B")
          = [c4w2] := rfl
      have h4 : (validSales [c4w1, c4w2, c4w3]).filter (fun r : Sale => r.sku = "C")
          = [c4w3] := rfl
      unfold abcTotals
      rw [h1, List.map_cons, List.map_cons, List.map_cons, List.map_nil]
      rw [h2, h3, h4]
      simp only [List.map_cons, List.map_nil, List.headD_cons,
        List.sum_cons, List.sum_nil, c4w1, c4w2, c4w3]
      norm_num
    have hs : abcSorted [c4w1, c4w2, c4w3]
        = [("A", "ProdA", (80 : ℚ)), ("B", "ProdB", (15 : ℚ)),
           ("C", "ProdC", (5 : ℚ))] := by
      rw [abcSorted, ht]
      simp only [List.insertionSort, List.orderedInsert]
      norm_num
    rw [abc_total_revenue, hs]
    simp only [List.map_cons, List.map_nil, List.sum_cons, List.sum_nil]
    norm_num
  have hmain := (c4_abc [c4w1, c4w2, c4w3]).2.2 hpos
  exact ⟨hpos, htot, hmain.1, hmain.2 htot⟩

/-! ### RFM segmentation (`calculate_rfm_analysis`) -/

/-- Rows with an identified buyer and a valid stored status — the query
filter of `calculate_rfm_analysis` and `cohort_analysis`
(src/app/services/metrics.py, lines 849-858 and 994-1002).  Unlike the
other metrics, these two filter on the raw `status_pedido` value, without
normalization. -/
def rawValidWithBuyer (rs : List Sale) : List Sale :=
  rs.filter (fun r => r.comprador.isSome ∧ r.status_pedido ∈ metricsValidStatuses)

/-- Identified buyers in first-appearance order (the iteration order of
the `customer_data` / `customer_purchases` dicts). -/
def buyersOf (rs : List Sale) : List String :=
  ((rawValidWithBuyer rs).filterMap (fun r => r.comprador)).dedup

/-- Purchase dates of one buyer, in row order. -/
def purchasesOf (rs : List Sale) (b : String) : List PyDate :=
  ((rawValidWithBuyer rs).filter (fun r => r.comprador = some b)).map
    (fun r => r.data_venda)

/-- Total spend of one buyer (`total_value` accumulation,
src/app/services/metrics.py, lines 882-883). -/
def buyerTotal (rs : List Sale) (b : String) : ℚ :=
  (((rawValidWithBuyer rs).filter (fun r => r.comprador = some b)).map
    (fun r => r.valor_total_venda)).sum

/-- `last_purchase` of a buyer: the maximum purchase date under Python
date comparison (initialised with the first purchase and updated on
strictly-greater dates).  The `headD` default is unreachable: the
function is only applied to a buyer's non-empty purchase list. -/
def lastPurchase (ps : List PyDate) : PyDate :=
  ps.foldl (fun a d => if PyDate.ltB a d then d else a) (ps.headD ⟨1, 1, 1⟩)

/-- `min(purchases)` of `cohort_analysis` (first purchase; Python `min`
keeps the earliest date).  The `headD` default is unreachable as in
`lastPurchase`. -/
def firstPurchase (ps : List PyDate) : PyDate :=
  ps.foldl (fun a d => if PyDate.ltB d a then d else a) (ps.headD ⟨1, 1, 1⟩)

/-- Model of `get_quartile_score` (src/app/services/metrics.py,
lines 911-941).  For a non-empty list the three quartile indices are
strictly below the length, so the `getD` defaults are never used; the
empty-list branch is the code's `return 2`. -/
def get_quartile_score {α : Type} [LinearOrder α]
    (value : α) (sorted_values : List α) (reverse : Bool) : Nat :=
  match sorted_values with
  | [] => 2
  | v0 :: rest =>
    let n := (v0 :: rest).length
    let q1 := (v0 :: rest).getD (n / 4) v0
    let q2 := (v0 :: rest).getD (n / 2) v0
    let q3 := (v0 :: rest).getD (3 * n / 4) v0
    if reverse then
      if value ≤ q1 then 4
      else if value ≤ q2 then 3
      else if value ≤ q3 then 2
      else 1
    else
      if q3 ≤ value then 4
      else if q2 ≤ value then 3
      else if q1 ≤ value then 2
      else 1

/-- Segment rule table of `calculate_rfm_analysis`
(src/app/services/metrics.py, lines 954-970); only the recency and
frequency scores are consulted. -/
def rfmSegment (r f : Nat) : String :=
  if r ≥ 4 ∧ f ≥ 4 then "Champions"
  else if r ≥ 3 ∧ f ≥ 3 then "Loyal Customers"
  else if r ≥ 4 ∧ f ≤ 2 then "New Customers"
  else if r ≥ 3 ∧ f ≤ 2 then "Potential Loyalists"
  else if r ≤ 2 ∧ f ≥ 3 then "At Risk"
  else if r ≤ 2 ∧ f ≥ 4 then "Cannot Lose Them"
  else if r ≤ 1 then "Lost"
  else "Others"

/-- One output row of `calculate_rfm_analysis` (the keys the claims read;
the `first_purchase`/`last_purchase` echo fields are omitted). -/
structure RfmEntry where
  comprador : String
  recency : Int
  frequency : Nat
  monetary : ℚ
  r_score : Nat
  f_score : Nat
  m_score : Nat
  rfm_score : String
  segment : String
deriving DecidableEq, Repr

/-- Per-buyer RFM metrics (src/app/services/metrics.py, lines 886-901):
recency = days from the buyer's last purchase to the reference date,
frequency = purchase count, monetary = total spend quantized to two
decimals. -/
def rfmBase (rs : List Sale) (refDate : PyDate) : List (String × Int × Nat × ℚ) :=
  (buyersOf rs).map (fun b =>
    (b, daysBetween refDate (lastPurchase (purchasesOf rs b)),
      (purchasesOf rs b).length,
      round2 (buyerTotal rs b)))

/-- Model of `calculate_rfm_analysis` (src/app/services/metrics.py,
lines 833-977).  The code's two early returns on empty row sets coincide
with the empty-buyer-list case.  The final ordering is Python's stable
descending sort by monetary value. -/
def calculate_rfm_analysis (rs : List Sale) (refDate : PyDate) : List RfmEntry :=
  let base := rfmBase rs refDate
  let recencies := List.insertionSort (fun a b : Int => a ≤ b)
    (base.map (fun p => p.2.1))
  let frequencies := List.insertionSort (fun a b : Nat => a ≤ b)
    (base.map (fun p => p.2.2.1))
  let monetaries := List.insertionSort (fun a b : ℚ => a ≤ b)
    (base.map (fun p => p.2.2.2))
  let scored := base.map (fun p =>
    let rScore := get_quartile_score p.2.1 recencies true
    let fScore := get_quartile_score p.2.2.1 frequencies false
    let mScore := get_quartile_score p.2.2.2 monetaries false
    RfmEntry.mk p.1 p.2.1 p.2.2.1 p.2.2.2 rScore fScore mScore
      (toString rScore ++ toString fScore ++ toString mScore)
      (rfmSegment rScore fScore))
  List.insertionSort (fun a b => b.monetary ≤ a.monetary) scored

instance : IsTotal RfmEntry (fun a b => b.monetary ≤ a.monetary) :=
  ⟨fun a b => le_total b.monetary a.monetary⟩

instance : IsTrans RfmEntry (fun a b => b.monetary ≤ a.monetary) :=
  ⟨fun _ _ _ h1 h2 => le_trans h2 h1⟩

theorem get_quartile_score_mem {α : Type} [LinearOrder α]
    (value : α) (l : List α) (rev : Bool) :
    get_quartile_score value l rev ∈ [1, 2, 3, 4] := by
  cases l with
  | nil => simp [get_quartile_score]
  | cons v0 rest =>
    simp only [get_quartile_score]
    split_ifs <;> decide

theorem rfmSegment_mem (r f : Nat) :
    rfmSegment r f ∈ ["Champions", "Loyal Customers", "New Customers",
      "Potential Loyalists", "At Risk", "Cannot Lose Them", "Lost", "Others"] := by
  unfold rfmSegment
  split_ifs <;> decide

theorem get_quartile_score_singleton {α : Type} [LinearOrder α]
    (v : α) (rev : Bool) : get_quartile_score v [v] rev = 4 := by
  cases rev <;> simp [get_quartile_score]

/-! ### Claim C10 -/

/-- C10: every RFM entry has its three scores in `{1, 2, 3, 4}`, an
`rfm_score` string that is the concatenation of the three digits, and a
segment from the fixed segment set; the returned list is sorted in
descending order of monetary value. -/
theorem c10_rfm (rs : List Sale) (refDate : PyDate) :
    List.Sorted (fun a b => b.monetary ≤ a.monetary)
        (calculate_rfm_analysis rs refDate) ∧
      ∀ e ∈ calculate_rfm_analysis rs refDate,
        e.r_score ∈ [1, 2, 3, 4] ∧ e.f_score ∈ [1, 2, 3, 4] ∧
          e.m_score ∈ [1, 2, 3, 4] ∧
          e.rfm_score
            = toString e.r_score ++ toString e.f_score ++ toString e.m_score ∧
          e.segment ∈ ["Champions", "Loyal Customers", "New Customers",
            "Potential Loyalists", "At Risk", "Cannot Lose Them", "Lost",
            "Others"] := by
  constructor
  · unfold calculate_rfm_analysis
    exact List.sorted_insertionSort _ _
  · intro e he
    unfold calculate_rfm_analysis at he
    rw [(List.perm_insertionSort _ _).mem_iff] at he
    obtain ⟨p, _, rfl⟩ := List.mem_map.mp he
    exact ⟨get_quartile_score_mem _ _ _, get_quartile_score_mem _ _ _,
      get_quartile_score_mem _ _ _, rfl, rfmSegment_mem _ _⟩

/-- The single record of the C10 witness collection. -/
def c10r : Sale := ⟨"SKU1", "Widget", "pago", ⟨2025, 1, 5⟩, 10, some "Ana"⟩

/-- The reference date of the C10 witness (ten days after the sale). -/
def c10Ref : PyDate := ⟨2025, 1, 15⟩

/-- The single RFM entry produced by the C10 witness collection. -/
def c10Entry : RfmEntry := ⟨"Ana", 10, 1, 10, 4, 4, 4, "444", "Champions"⟩

/-- C10: witness at a one-buyer collection: the single entry scores 4/4/4,
concatenates to `"444"`, falls in `Champions`, and the one-element list is
trivially sorted. -/
theorem c10_rfm_witness :
    calculate_rfm_analysis [c10r] c10Ref = [c10Entry] ∧
      c10Entry ∈ calculate_rfm_analysis [c10r] c10Ref ∧
      c10Entry.r_score ∈ [1, 2, 3, 4] ∧
      c10Entry.rfm_score = toString c10Entry.r_score
        ++ toString c10Entry.f_score ++ toString c10Entry.m_score ∧
      c10Entry.segment ∈ ["Champions", "Loyal Customers", "New Customers",
        "Potential Loyalists", "At Risk", "Cannot Lose Them", "Lost",
        "Others"] := by
  have hbase : rfmBase [c10r] c10Ref = [("Ana", (10 : Int), 1, (10 : ℚ))] := by
    have hb : buyersOf [c10r] = ["Ana"] := rfl
    have hp : purchasesOf [c10r] "Ana" = [⟨2025, 1, 5⟩] := rfl
    have hlast : lastPurchase [(⟨2025, 1, 5⟩ : PyDate)] = ⟨2025, 1, 5⟩ := rfl
    have hdays : daysBetween c10Ref ⟨2025, 1, 5⟩ = 10 := by decide
    have hbt : buyerTotal [c10r] "Ana" = 10 := by
      have hf : (rawValidWithBuyer [c10r]).filter
          (fun r : Sale => r.comprador = some "Ana") = [c10r] := rfl
      rw [buyerTotal, hf]
      simp only [List.map_cons, List.map_nil, List.sum_cons, List.sum_nil, c10r]
      norm_num
    rw [rfmBase, hb, List.map_cons, List.map_nil]
    rw [hp, hlast, hdays, hbt]
    have hr10 : round2 10 = 10 := round2_eq_self ⟨1000, by norm_num⟩
    rw [hr10]
    rfl
  have heval : calculate_rfm_analysis [c10r] c10Ref = [c10Entry] := by
    unfold calculate_rfm_analysis
    rw [hbase]
    simp only [List.map_cons, List.map_nil, List.insertionSort,
      List.orderedInsert, get_quartile_score_singleton]
    rfl
  have hmem : c10Entry ∈ calculate_rfm_analysis [c10r] c10Ref := by
    rw [heval]
    exact List.mem_singleton_self c10Entry
  have hfields := (c10_rfm [c10r] c10Ref).2 c10Entry hmem
  exact ⟨heval, hmem, hfields.1, hfields.2.2.2.1, hfields.2.2.2.2⟩

/-! ### Cohort retention (`cohort_analysis`) -/

/-- Cohort of a buyer: the calendar month of the buyer's first
valid-status purchase (src/app/services/metrics.py, lines 1017-1021). -/
def cohortOf (rs : List Sale) (b : String) : Nat × Nat :=
  monthKey (firstPurchase (purchasesOf rs b))

/-- `sorted(cohort_data.keys())`: the distinct cohorts in ascending
(year, month) order; dict keys arise in buyer iteration order and Python
sorts tuples lexicographically. -/
def cohortKeys (rs : List Sale) : List (Nat × Nat) :=
  List.insertionSort
    (fun a b : Nat × Nat => a.1 < b.1 ∨ (a.1 = b.1 ∧ a.2 ≤ b.2))
    (((buyersOf rs).map (fun b => cohortOf rs b)).dedup)

/-- `len(cohort_data[cohort][period])`: the number of distinct buyers of
cohort `c` with a purchase at month offset `p`; the key `p` is present in
the dict exactly when this count is positive. -/
def activeCount (rs : List Sale) (c : Nat × Nat) (p : Int) : Nat :=
  ((buyersOf rs).filter (fun b => cohortOf rs b = c ∧
    (purchasesOf rs b).any (fun d => monthsDiff c (monthKey d) = p))).length

/-- `max_periods` (src/app/services/metrics.py, lines 1051-1054): the
maximum month offset over all purchases of all buyers, starting from 0
(each dict key is the offset of some purchase of some buyer of that
cohort, so the per-cohort maxima fold into this single maximum). -/
def maxPeriods (rs : List Sale) : Int :=
  (buyersOf rs).foldl (fun acc b =>
    (purchasesOf rs b).foldl
      (fun a d => max a (monthsDiff (cohortOf rs b) (monthKey d))) acc) 0

/-- Return value of `cohort_analysis`
(src/app/services/metrics.py, lines 1077-1082). -/
structure CohortOut where
  cohort_labels : List String
  period_labels : List String
  retention_matrix : List (List ℚ)
  cohort_sizes : List Nat
deriving DecidableEq, Repr

/-- Two-digit zero-padded numeral (the `f"{month:02d}"` formatting). -/
def pad2 (n : Nat) : String := if n < 10 then "0" ++ toString n else toString n

/-- Model of `cohort_analysis` (src/app/services/metrics.py,
lines 980-1082).  The second early return (`if not sorted_cohorts`) can
only fire together with the first (no rows means no buyers and no
cohorts) and is subsumed by it.  A matrix cell is the rounded retention
rate when the cohort has an offset-0 size and buyers active at that
offset, and `0.0` otherwise. -/
def cohort_analysis (rs : List Sale) : CohortOut :=
  if (rawValidWithBuyer rs).isEmpty then ⟨[], [], [], []⟩
  else
    let cohorts := cohortKeys rs
    let nP := (maxPeriods rs).toNat + 1
    { cohort_labels := cohorts.map (fun c => pad2 c.2 ++ "/" ++ toString c.1)
      period_labels := (List.range nP).map (fun i => "Mês " ++ toString i)
      retention_matrix := cohorts.map (fun c =>
        (List.range nP).map (fun p : Nat =>
          if 0 < activeCount rs c 0 ∧ 0 < activeCount rs c (p : Int) then
            round2 ((activeCount rs c (p : Int) : ℚ)
              / (activeCount rs c 0 : ℚ) * 100)
          else 0))
      cohort_sizes := cohorts.map (fun c => activeCount rs c 0) }

/-! ### Claim C5 -/

/-- C5: the retention matrix is rectangular — one row per cohort label,
each row with one cell per period label (every offset from 0 to the
maximum observed offset) — offsets with no active buyers hold `0.0`
rather than being omitted, and every row whose cohort has a positive
offset-0 size has `100.0` in its offset-0 cell. -/
theorem c5_cohort (rs : List Sale) :
    (cohort_analysis rs).retention_matrix.length
        = (cohort_analysis rs).cohort_labels.length ∧
      (cohort_analysis rs).cohort_sizes.length
        = (cohort_analysis rs).cohort_labels.length ∧
      (∀ row ∈ (cohort_analysis rs).retention_matrix,
        row.length = (cohort_analysis rs).period_labels.length) ∧
      (∀ i, i < (cohort_analysis rs).retention_matrix.length →
        0 < (cohort_analysis rs).cohort_sizes.getD i 0 →
        (((cohort_analysis rs).retention_matrix.getD i []).getD 0 0 = 100)) ∧
      (∀ i p : Nat, i < (cohort_analysis rs).retention_matrix.length →
        p < (cohort_analysis rs).period_labels.length →
        activeCount rs ((cohortKeys rs).getD i (0, 0)) (p : Int) = 0 →
        ((cohort_analysis rs).retention_matrix.getD i []).getD p 0 = 0) := by
  by_cases hrows : (rawValidWithBuyer rs).isEmpty
  · refine ⟨?_, ?_, ?_, ?_, ?_⟩ <;>
      simp [cohort_analysis, hrows]
  · have hmx : 0 < (maxPeriods rs).toNat + 1 := Nat.succ_pos _
    simp only [cohort_analysis, if_neg hrows]
    have hrowD : ∀ i : Nat, i < (cohortKeys rs).length →
        (List.map (fun c => (List.range ((maxPeriods rs).toNat + 1)).map
          (fun p : Nat =>
            if 0 < activeCount rs c 0 ∧ 0 < activeCount rs c (p : Int) then
              round2 ((activeCount rs c (p : Int) : ℚ)
                / (activeCount rs c 0 : ℚ) * 100)
            else 0)) (cohortKeys rs)).getD i []
          = (List.range ((maxPeriods rs).toNat + 1)).map (fun p : Nat =>
              if 0 < activeCount rs ((cohortKeys rs).getD i (0, 0)) 0 ∧
                  0 < activeCount rs ((cohortKeys rs).getD i (0, 0)) (p : Int) then
                round2 ((activeCount rs ((cohortKeys rs).getD i (0, 0)) (p : Int) : ℚ)
                  / (activeCount rs ((cohortKeys rs).getD i (0, 0)) 0 : ℚ) * 100)
              else 0) := by
      intro i hi
      rw [List.getD_eq_getElem _ _ (by rw [List.length_map]; exact hi),
        List.getElem_map, List.getD_eq_getElem _ _ hi]
    have hcellD : ∀ (c : Nat × Nat) (p : Nat), p < (maxPeriods rs).toNat + 1 →
        ((List.range ((maxPeriods rs).toNat + 1)).map (fun p : Nat =>
          if 0 < activeCount rs c 0 ∧ 0 < activeCount rs c (p : Int) then
            round2 ((activeCount rs c (p : Int) : ℚ)
              / (activeCount rs c 0 : ℚ) * 100)
          else 0)).getD p 0
          = (if 0 < activeCount rs c 0 ∧ 0 < activeCount rs c (p : Int) then
              round2 ((activeCount rs c (p : Int) : ℚ)
                / (activeCount rs c 0 : ℚ) * 100)
            else 0) := by
      intro c p hp
      rw [List.getD_eq_getElem _ _
        (by rw [List.length_map, List.length_range]; exact hp),
        List.getElem_map, List.getElem_range]
    refine ⟨by simp, by simp, ?_, ?_, ?_⟩
    · intro row hrow
      obtain ⟨c, _, rfl⟩ := List.mem_map.mp hrow
      simp
    · intro i hi hpos
      rw [List.length_map] at hi
      have hsizeD : (List.map (fun c => activeCount rs c 0) (cohortKeys rs)).getD i 0
          = activeCount rs ((cohortKeys rs).getD i (0, 0)) 0 := by
        rw [List.getD_eq_getElem _ _ (by rw [List.length_map]; exact hi),
          List.getElem_map, List.getD_eq_getElem _ _ hi]
      rw [hsizeD] at hpos
      rw [hrowD i hi, hcellD _ 0 hmx]
      have h0 : ((0 : Nat) : Int) = (0 : Int) := rfl
      rw [h0]
      have hns : ((activeCount rs ((cohortKeys rs).getD i (0, 0)) 0 : ℚ)) ≠ 0 := by
        exact_mod_cast Nat.pos_iff_ne_zero.mp hpos
      rw [if_pos (And.intro hpos hpos), div_self hns, one_mul]
      exact round2_eq_self ⟨10000, by norm_num⟩
    · intro i p hi hp hzero
      rw [List.length_map] at hi
      rw [List.length_map, List.length_range] at hp
      rw [hrowD i hi, hcellD _ p hp]
      rw [if_neg]
      intro hcon
      rw [hzero] at hcon
      exact lt_irrefl 0 hcon.2

/-- The single record of the C5 witness collection. -/
def c5r : Sale := ⟨"SKU1", "Widget", "pago", ⟨2025, 1, 5⟩, 10, some "Ana"⟩

/-- C5: witness at a one-buyer collection: one cohort of size 1 whose
offset-0 cell is 100.0 and whose single row spans all period labels. -/
theorem c5_cohort_witness :
    0 < (cohort_analysis [c5r]).retention_matrix.length ∧
      0 < (cohort_analysis [c5r]).cohort_sizes.getD 0 0 ∧
      (((cohort_analysis [c5r]).retention_matrix.getD 0 []).getD 0 0 = 100) := by
  have h1 : 0 < (cohort_analysis [c5r]).retention_matrix.length := by decide
  have h2 : 0 < (cohort_analysis [c5r]).cohort_sizes.getD 0 0 := by decide
  exact ⟨h1, h2, (c5_cohort [c5r]).2.2.2.1 0 h1 h2⟩

/-! ### Claim C8 -/

/-- C8: on the empty record collection every embedded metrics function
returns the zero-valued or empty aggregate of its normal shape — the KPI
summary is all zeros, the time series has empty labels and values, the
ABC list and the RFM list are empty, and the cohort structure has empty
label lists, matrix and sizes; being total Lean functions, none can raise
or return a `None`-like value. -/
theorem c8_empty (refDate : PyDate) :
    get_kpis [] = ⟨0, 0, 0, 0⟩ ∧
      sales_timeseries [] = ⟨[], []⟩ ∧
      abc_by_revenue [] = [] ∧
      calculate_rfm_analysis [] refDate = [] ∧
      cohort_analysis [] = ⟨[], [], [], []⟩ := by
  refine ⟨?_, rfl, rfl, rfl, rfl⟩
  simp only [get_kpis, validSales, cancelledSales, List.filter_nil,
    List.map_nil, List.sum_nil, List.length_nil, Kpis.mk.injEq]
  norm_num [round2, roundHalfEven]

/-! ### Claim C1 -/

theorem lastIdxAux_eq_or_le (x : Char) :
    ∀ (l : List Char) (i best : Int),
      lastIdxAux x i best l = best ∨ i ≤ lastIdxAux x i best l := by
  intro l
  induction l with
  | nil => intro i best; exact Or.inl rfl
  | cons c rest ih =>
    intro i best
    simp only [lastIdxAux]
    by_cases hc : c = x
    · rw [if_pos hc]
      rcases ih (i + 1) i with h | h
      · exact Or.inr (by omega)
      · exact Or.inr (by omega)
    · rw [if_neg hc]
      rcases ih (i + 1) best with h | h
      · exact Or.inl h
      · exact Or.inr (by omega)

theorem lastIdxAux_le_of_mem (x : Char) :
    ∀ (l : List Char) (i best : Int), x ∈ l → i ≤ lastIdxAux x i best l := by
  intro l
  induction l with
  | nil => intro i best h; cases h
  | cons c rest ih =>
    intro i best hmem
    simp only [lastIdxAux]
    by_cases hc : c = x
    · rw [if_pos hc]
      rcases lastIdxAux_eq_or_le x rest (i + 1) i with h | h <;> omega
    · rw [if_neg hc]
      have hr : x ∈ rest := by
        rcases List.mem_cons.mp hmem with h | h
        · exact absurd h.symm hc
        · exact h
      have := ih (i + 1) best hr
      omega

theorem lastIdxAux_of_not_mem (x : Char) :
    ∀ (l : List Char) (i best : Int), x ∉ l → lastIdxAux x i best l = best := by
  intro l
  induction l with
  | nil => intro i best _; rfl
  | cons c rest ih =>
    intro i best h
    simp only [lastIdxAux]
    rw [if_neg (fun hc => h (by rw [← hc]; exact List.mem_cons_self c rest))]
    exact ih (i + 1) best (fun hr => h (List.mem_cons_of_mem c hr))

theorem lastIdx_nonneg_of_contains (l : List Char) (x : Char)
    (h : l.contains x = true) : 0 ≤ lastIdx l x := by
  rw [lastIdx]
  exact lastIdxAux_le_of_mem x l 0 (-1) (List.mem_of_elem_eq_true h)

theorem lastIdx_of_not_contains (l : List Char) (x : Char)
    (h : l.contains x = false) : lastIdx l x = -1 := by
  rw [lastIdx]
  refine lastIdxAux_of_not_mem x l 0 (-1) (fun hm => ?_)
  have h' : List.elem x l = false := h
  rw [List.elem_eq_true_of_mem hm] at h'
  cases h'

theorem removeChar_of_not_contains (l : List Char) (x : Char)
    (h : l.contains x = false) : removeChar x l = l := by
  rw [removeChar]
  refine List.filter_eq_self.mpr (fun a ha => ?_)
  simp only [ne_eq, decide_eq_true_eq]
  intro hax
  rw [hax] at ha
  have h' : List.elem x l = false := h
  rw [List.elem_eq_true_of_mem ha] at h'
  cases h'

theorem decOrError_toOption (o : Option PyDec) : (decOrError o).toOption = o := by
  cases o <;> rfl

/-- C1: counterexample.  The claim states that both embedded parsers return
`1234.56` for `"1,234.56"`; `parse_decimal_ptbr` instead treats the comma
as the decimal separator whenever both separators appear, so it returns
the `Decimal` `1.23456` (mantissa 123456, five decimal places) for that
input. -/
theorem c1_counterexample :
    parse_decimal_ptbr "1,234.56" = some (PyDec.fin 123456 5 0) ∧
      PyDec.val (PyDec.fin 123456 5 0) = some ((123456 : ℚ) / 100000) ∧
      ((123456 : ℚ) / 100000) ≠ (1234.56 : ℚ) := by
  refine ⟨by decide, ?_, by norm_num⟩
  simp only [PyDec.val, zpow_zero, mul_one, Option.some.injEq]
  norm_num

set_option maxHeartbeats 1000000 in
/-- C1: amended claim.  On every input, `parse_decimal_ptbr_en` follows
the right-most-separator rule (`parse_money_rightmost`, written from the
claim's words); on every input whose cleaned form contains both `,` and
`.`, `parse_decimal_ptbr` drops every `.` and takes `,` as the decimal
separator regardless of which is right-most; on every input whose cleaned
form contains `,` but no `.`, it likewise takes `,` as the decimal
separator.  In particular both parsers return the `Decimal` `1234.56` for
`"1.234,56"` (also with an `R$` prefix) and for `"10,50"` both return
`10.50`, while `parse_decimal_ptbr_en` alone returns `1234.56` for
`"1,234.56"`. -/
theorem c1_amended :
    (∀ value : String,
      (parse_decimal_ptbr_en value).toOption = parse_money_rightmost value) ∧
    (∀ value : String, (cleanMoney value).contains ',' = true →
      (cleanMoney value).contains '.' = true →
      parse_decimal_ptbr value =
        pyDecimalParse (replaceChar ',' '.' (removeChar '.' (cleanMoney value)))) ∧
    (∀ value : String, (cleanMoney value).contains ',' = true →
      (cleanMoney value).contains '.' = false →
      parse_decimal_ptbr value =
        pyDecimalParse (replaceChar ',' '.' (cleanMoney value))) ∧
    parse_decimal_ptbr "1.234,56" = some (PyDec.fin 123456 2 0) ∧
    parse_decimal_ptbr_en "1.234,56" = .ok (PyDec.fin 123456 2 0) ∧
    parse_decimal_ptbr_en "1,234.56" = .ok (PyDec.fin 123456 2 0) ∧
    parse_decimal_ptbr "10,50" = some (PyDec.fin 1050 2 0) ∧
    parse_decimal_ptbr_en "10,50" = .ok (PyDec.fin 1050 2 0) ∧
    parse_decimal_ptbr "R$ 100,00" = some (PyDec.fin 10000 2 0) ∧
    parse_decimal_ptbr_en "R$ 1.234,56" = .ok (PyDec.fin 123456 2 0) ∧
    PyDec.val (PyDec.fin 123456 2 0) = some (1234.56 : ℚ) := by
  refine ⟨?_, ?_, ?_, by decide, by decide, by decide, by decide, by decide,
    by decide, by decide, ?_⟩
  · intro value
    simp only [parse_decimal_ptbr_en, parse_money_rightmost]
    by_cases hc : cleanMoney value = []
    · rw [if_pos hc, if_pos hc]; rfl
    · rw [if_neg hc, if_neg hc, decOrError_toOption]
      by_cases h1 : (cleanMoney value).contains ',' = true
      · by_cases h2 : (cleanMoney value).contains '.' = true
        · have hcp := lastIdx_nonneg_of_contains _ _ h1
          have houter : lastIdx (cleanMoney value) ',' ≠ -1 ∨
              lastIdx (cleanMoney value) '.' ≠ -1 := Or.inl (by omega)
          have hboth : (cleanMoney value).contains ',' = true ∧
              (cleanMoney value).contains '.' = true := ⟨h1, h2⟩
          rw [if_pos houter, if_pos hboth]
          split_ifs <;> rfl
        · rw [Bool.not_eq_true] at h2
          have hcp := lastIdx_nonneg_of_contains _ _ h1
          have hdp := lastIdx_of_not_contains _ _ h2
          have houter : lastIdx (cleanMoney value) ',' ≠ -1 ∨
              lastIdx (cleanMoney value) '.' ≠ -1 := Or.inl (by omega)
          have hgt : lastIdx (cleanMoney value) ',' >
              lastIdx (cleanMoney value) '.' := by omega
          have hnboth : ¬((cleanMoney value).contains ',' = true ∧
              (cleanMoney value).contains '.' = true) := by
            rintro ⟨-, hb⟩
            rw [h2] at hb
            cases hb
          rw [if_pos houter, if_pos hgt, removeChar_of_not_contains _ _ h2,
            if_neg hnboth, if_pos h1]
      · rw [Bool.not_eq_true] at h1
        have hnc : ¬((cleanMoney value).contains ',' = true) := by
          rw [h1]
          exact Bool.false_ne_true
        by_cases h2 : (cleanMoney value).contains '.' = true
        · have hcp := lastIdx_of_not_contains _ _ h1
          have hdp := lastIdx_nonneg_of_contains _ _ h2
          have houter : lastIdx (cleanMoney value) ',' ≠ -1 ∨
              lastIdx (cleanMoney value) '.' ≠ -1 := Or.inr (by omega)
          have hngt : ¬(lastIdx (cleanMoney value) ',' >
              lastIdx (cleanMoney value) '.') := by omega
          have hnboth : ¬((cleanMoney value).contains ',' = true ∧
              (cleanMoney value).contains '.' = true) := fun hb => hnc hb.1
          rw [if_pos houter, if_neg hngt, removeChar_of_not_contains _ _ h1,
            if_neg hnboth, if_neg hnc]
        · rw [Bool.not_eq_true] at h2
          have hcp := lastIdx_of_not_contains _ _ h1
          have hdp := lastIdx_of_not_contains _ _ h2
          have hnouter : ¬(lastIdx (cleanMoney value) ',' ≠ -1 ∨
              lastIdx (cleanMoney value) '.' ≠ -1) :=
            fun hb => hb.elim (fun h => h hcp) (fun h => h hdp)
          have hnboth : ¬((cleanMoney value).contains ',' = true ∧
              (cleanMoney value).contains '.' = true) := fun hb => hnc hb.1
          rw [if_neg hnouter, removeChar_of_not_contains _ _ h1,
            removeChar_of_not_contains _ _ h2, if_neg hnboth, if_neg hnc]
  · intro value h1 h2
    simp only [parse_decimal_ptbr]
    have hne : ¬(cleanMoney value = [] ∨ cleanMoney value = ['-']) := by
      rintro (h | h) <;> rw [h] at h1 <;> exact absurd h1 (by decide)
    have hboth : (cleanMoney value).contains ',' = true ∧
        (cleanMoney value).contains '.' = true := ⟨h1, h2⟩
    rw [if_neg hne, if_pos hboth]
  · intro value h1 h2
    simp only [parse_decimal_ptbr]
    have hne : ¬(cleanMoney value = [] ∨ cleanMoney value = ['-']) := by
      rintro (h | h) <;> rw [h] at h1 <;> exact absurd h1 (by decide)
    have hnboth : ¬((cleanMoney value).contains ',' = true ∧
        (cleanMoney value).contains '.' = true) := by
      rintro ⟨-, hb⟩
      rw [h2] at hb
      cases hb
    rw [if_neg hne, if_neg hnboth, if_pos h1]
  · simp only [PyDec.val, zpow_zero, mul_one, Option.some.injEq]
    norm_num

/-- C1 witness: the universal clauses of `c1_amended` instantiated at
`"1,234.56"` (both separators present) and `"10,50"` (comma only). -/
theorem c1_amended_witness :
    ((cleanMoney "1,234.56").contains ',' = true ∧
      (cleanMoney "1,234.56").contains '.' = true ∧
      parse_decimal_ptbr "1,234.56" =
        pyDecimalParse
          (replaceChar ',' '.' (removeChar '.' (cleanMoney "1,234.56")))) ∧
    ((cleanMoney "10,50").contains ',' = true ∧
      (cleanMoney "10,50").contains '.' = false ∧
      parse_decimal_ptbr "10,50" =
        pyDecimalParse (replaceChar ',' '.' (cleanMoney "10,50"))) :=
  ⟨⟨by decide, by decide, c1_amended.2.1 "1,234.56" (by decide) (by decide)⟩,
    ⟨by decide, by decide, c1_amended.2.2.1 "10,50" (by decide) (by decide)⟩⟩
